import Mathlib

/-!
Verification of the IR generator (`src/src/ir_generator.rs`) of the
new-nu-parser repository: a lowering pass from a parsed AST to a linear,
register-based IR.

The generator itself (`IrGenerator`) is embedded faithfully from the Rust
source.  The types it consumes (`NodeId`, `AstNode`, `Block`, the compiler's
node/block tables and span lookup) live in other files of the repository that
are not part of the provided sources, so they are modelled from the spec
(sections 3 and 6).  Rust machine integers that cannot overflow on any
reachable input (`u32` register and file counters, list indices) are modelled
as `Nat`; `i64` literal values are `Int` with the explicit signed 64-bit
range check performed by the source's `parse::<i64>()` call.
-/

namespace NuIr

/-- Modelled from the spec: `NodeId` is an opaque, stable handle into the
AST node table (an index). -/
structure NodeId where
  id : Nat
deriving DecidableEq, Repr

/-- Modelled from the spec: opaque handle into the table of blocks. -/
structure BlockId where
  id : Nat
deriving DecidableEq, Repr

/-- Modelled from the spec: `AstNode` is a closed tagged variant: integer
literal; block (ordered sequence of `NodeId`); binary operation
(left `NodeId`, operator `NodeId`, right `NodeId`); operator leaves
(`Plus`, `Multiply`); other kinds reserved for future support.  `Garbage`
stands for the node kinds the generator does not support. -/
inductive AstNode where
  | Int : AstNode
  | Block : BlockId → AstNode
  | BinaryOp : NodeId → NodeId → NodeId → AstNode
  | Plus : AstNode
  | Multiply : AstNode
  | Garbage : AstNode
deriving DecidableEq, Repr

/-- Modelled from the spec: a block is an ordered sequence of `NodeId`
representing sequential evaluation. -/
structure AstBlock where
  nodes : List NodeId
deriving DecidableEq, Repr

/-- Modelled from the spec: the completed parse result the generator is bound
to — a table of AST nodes, a table of blocks, and a lookup from a `NodeId`
to the raw source-text bytes it spans (bytes are naturals below 256). -/
structure Compiler where
  ast_nodes : List AstNode
  blocks : List AstBlock
  span_bytes : Nat → List Nat

/-- `Compiler::get_node`: look up an AST node by id.  Out-of-range access is
a Rust panic in the source; the model totalises it with `Garbage`. -/
def get_node (c : Compiler) (nid : NodeId) : AstNode :=
  c.ast_nodes.getD nid.id AstNode.Garbage

/-- Severity of a diagnostic (`errors.rs`, modelled from the spec:
severity is `Error` or `Warning`). -/
inductive Severity where
  | Error : Severity
  | Warning : Severity
deriving DecidableEq, Repr

/-- A diagnostic (`SourceError` in `errors.rs`, modelled from the spec):
message, originating node id, severity. -/
structure SourceError where
  message : String
  node_id : NodeId
  severity : Severity
deriving DecidableEq, Repr

/-- `nu_protocol::ast::Math`, restricted to the codes the generator emits. -/
inductive Math where
  | Plus : Math
  | Multiply : Math
deriving DecidableEq, Repr

/-- `nu_protocol::ast::Operator`: semantic operator code. -/
inductive Operator where
  | math : Math → Operator
deriving DecidableEq, Repr

/-- `nu_protocol::ir::Literal`, restricted to the variant the generator
emits: a signed 64-bit integer constant. -/
inductive Literal where
  | int : Int → Literal
deriving DecidableEq, Repr

/-- `nu_protocol::ir::Instruction`, restricted to the variants the generator
emits.  Register ids (`RegId`) are naturals. -/
inductive Instruction where
  | LoadLiteral : Nat → Literal → Instruction
  | BinaryOp : Nat → Operator → Nat → Instruction
  | Return : Nat → Instruction
deriving DecidableEq, Repr

/-- A source span (`nu_protocol::Span`); `stop` models the `end` field. -/
structure Span where
  start : Nat
  stop : Nat
deriving DecidableEq, Repr

/-- `nu_protocol::ir::IrBlock`, with the fields the generator populates.
`data` and `comments` are the (empty) literal-data and comment pools. -/
structure IrBlock where
  instructions : List Instruction
  spans : List Span
  data : List Nat
  ast : List (Option Nat)
  comments : List String
  register_count : Nat
  file_count : Nat
deriving DecidableEq, Repr

/-- The mutable state of `IrGenerator` (its fields except the borrowed
compiler).  `allocated` is a ghost field recording, in order, every register
id handed out by `next_register`; it is written only by `next_register`,
read by no generator code, and exists solely to state allocation-order
invariants. -/
structure GenState where
  errors : List SourceError
  instructions : List Instruction
  register_count : Nat
  file_count : Nat
  allocated : List Nat
deriving DecidableEq, Repr

/-- `IrGenerator::new`: the fresh generator state. -/
def newState : GenState :=
  { errors := [], instructions := [], register_count := 0, file_count := 0,
    allocated := [] }

/-- `IrGenerator::error`: push one `Error`-severity diagnostic. -/
def addError (s : GenState) (message : String) (nid : NodeId) : GenState :=
  { s with errors :=
      s.errors ++ [{ message := message, node_id := nid, severity := Severity.Error }] }

/-- Append one instruction (`self.instructions.push(..)`). -/
def pushInstr (s : GenState) (i : Instruction) : GenState :=
  { s with instructions := s.instructions ++ [i] }

/-- `IrGenerator::next_register`: return the current counter value and
increment it.  The ghost `allocated` list records the handed-out id. -/
def next_register (s : GenState) : Nat × GenState :=
  (s.register_count,
   { s with register_count := s.register_count + 1,
            allocated := s.allocated ++ [s.register_count] })

/-- Debug rendering of an AST node tag, standing in for Rust's `{:?}`
formatting inside error messages (payloads abstracted). -/
def reprAst : AstNode → String
  | AstNode.Int => "Int"
  | AstNode.Block _ => "Block"
  | AstNode.BinaryOp _ _ _ => "BinaryOp"
  | AstNode.Plus => "Plus"
  | AstNode.Multiply => "Multiply"
  | AstNode.Garbage => "Garbage"

/-- Is `b` a UTF-8 continuation byte? -/
def utf8Cont (b : Nat) : Bool :=
  0x80 ≤ b && b ≤ 0xBF

/-- Model of `std::str::from_utf8` seen as a decoder to the list of Unicode
scalar values: `none` exactly when the byte list is not valid UTF-8
(including overlong forms, surrogates and values above U+10FFFF). -/
def utf8Decode : List Nat → Option (List Nat)
  | [] => some []
  | b0 :: t0 =>
    if b0 ≤ 0x7F then
      match utf8Decode t0 with
      | some cs => some (b0 :: cs)
      | none => none
    else
      match t0 with
      | [] => none
      | b1 :: t1 =>
        if 0xC2 ≤ b0 && b0 ≤ 0xDF && utf8Cont b1 then
          match utf8Decode t1 with
          | some cs => some (((b0 - 0xC0) * 0x40 + (b1 - 0x80)) :: cs)
          | none => none
        else
          match t1 with
          | [] => none
          | b2 :: t2 =>
            if (0xE0 ≤ b0 && b0 ≤ 0xEF) && utf8Cont b2 &&
               (if b0 = 0xE0 then 0xA0 ≤ b1 && b1 ≤ 0xBF
                else if b0 = 0xED then 0x80 ≤ b1 && b1 ≤ 0x9F
                else utf8Cont b1) then
              match utf8Decode t2 with
              | some cs =>
                some (((b0 - 0xE0) * 0x1000 + (b1 - 0x80) * 0x40 + (b2 - 0x80)) :: cs)
              | none => none
            else
              match t2 with
              | [] => none
              | b3 :: t3 =>
                if (0xF0 ≤ b0 && b0 ≤ 0xF4) && utf8Cont b2 && utf8Cont b3 &&
                   (if b0 = 0xF0 then 0x90 ≤ b1 && b1 ≤ 0xBF
                    else if b0 = 0xF4 then 0x80 ≤ b1 && b1 ≤ 0x8F
                    else utf8Cont b1) then
                  match utf8Decode t3 with
                  | some cs =>
                    some (((b0 - 0xF0) * 0x40000 + (b1 - 0x80) * 0x1000 +
                           (b2 - 0x80) * 0x40 + (b3 - 0x80)) :: cs)
                  | none => none
                else none

/-- Is `c` the scalar value of an ASCII decimal digit? -/
def isDigitCp (c : Nat) : Bool :=
  0x30 ≤ c && c ≤ 0x39

/-- Accumulate the value of a run of ASCII digits; `none` on any non-digit. -/
def digitsVal : List Nat → Nat → Option Nat
  | [], acc => some acc
  | c :: rest, acc =>
    if isDigitCp c then digitsVal rest (acc * 10 + (c - 0x30)) else none

/-- The digit-run part of `i64` parsing: at least one character, all ASCII
digits, and the signed value within the 64-bit range. -/
def parseI64Core (neg : Bool) (digits : List Nat) : Option Int :=
  match digits with
  | [] => none
  | _ =>
    match digitsVal digits 0 with
    | none => none
    | some n =>
      let v : Int := if neg then -(n : Int) else (n : Int)
      if -(2 ^ 63) ≤ v ∧ v ≤ 2 ^ 63 - 1 then some v else none

/-- Model of Rust's `str::parse::<i64>()` on a list of Unicode scalar
values: an optional single `+`/`-` sign, then at least one ASCII digit,
value within the signed 64-bit range; anything else is `none`. -/
def parseI64 (cps : List Nat) : Option Int :=
  match cps with
  | [] => none
  | c :: rest =>
    if c = 0x2D then parseI64Core true rest
    else if c = 0x2B then parseI64Core false rest
    else parseI64Core false cps

/-- The pure value of `span_to_i64` at a node: UTF-8 decode of the node's
span bytes, then `i64` parsing; `none` on either failure. -/
def spanI64Pure (c : Compiler) (nid : NodeId) : Option Int :=
  (utf8Decode (c.span_bytes nid.id)).bind parseI64

/-- `IrGenerator::span_to_string`: decode the node's span bytes as UTF-8;
on failure push one diagnostic and yield nothing. -/
def span_to_string (c : Compiler) (nid : NodeId) (s : GenState) :
    Option (List Nat) × GenState :=
  match utf8Decode (c.span_bytes nid.id) with
  | some cps => (some cps, s)
  | none =>
    (none, addError s "failed to convert a node to string: invalid utf-8" nid)

/-- `IrGenerator::span_to_i64`: parse the decoded span text as an `i64`;
on failure push one diagnostic and yield nothing. -/
def span_to_i64 (c : Compiler) (nid : NodeId) (s : GenState) :
    Option Int × GenState :=
  match span_to_string c nid s with
  | (none, s1) => (none, s1)
  | (some cps, s1) =>
    match parseI64 cps with
    | some v => (some v, s1)
    | none =>
      (none, addError s1 "failed to convert a node to string: parse error" nid)

/-- `IrGenerator::node_to_operator`: map operator leaves to semantic
operator codes; any other node yields one diagnostic and nothing. -/
def node_to_operator (c : Compiler) (nid : NodeId) (s : GenState) :
    Option Operator × GenState :=
  match get_node c nid with
  | AstNode.Plus => (some (Operator.math Math.Plus), s)
  | AstNode.Multiply => (some (Operator.math Math.Multiply), s)
  | node => (none, addError s ("unrecognized operator " ++ reprAst node) nid)

/-- The source's `for id in &block.nodes { last = self.generate_node(*id); last?; }`
loop, abstracted over the child-lowering function `f`: lower each child in
order; stop at the first failing child, propagating its failure; the value
of a non-empty successful run is the last child's register; an empty list
yields nothing. -/
def genListWith (f : NodeId → GenState → Option Nat × GenState) :
    List NodeId → GenState → Option Nat × GenState
  | [], s => (none, s)
  | [nid], s => f nid s
  | nid :: rest, s =>
    match f nid s with
    | (none, s1) => (none, s1)
    | (some _, s1) => genListWith f rest s1

/-- `IrGenerator::generate_node`, the recursive lowering.  The Rust
recursion is on node ids handed out by the parser (children have smaller
ids than their parent, so the depth is bounded by the node-table length);
the model makes this explicit with a fuel argument that decreases by one
per nesting level, and exhausted fuel — unreachable for parser-produced
ASTs under the fuel chosen in `generate` — lowers to nothing. -/
def generate_node (c : Compiler) : Nat → NodeId → GenState → Option Nat × GenState
  | 0, _, s => (none, s)
  | fuel + 1, nid, s =>
    match get_node c nid with
    | AstNode.Int =>
      let p := next_register s
      match span_to_i64 c nid p.2 with
      | (none, s1) => (none, s1)
      | (some val, s1) =>
        (some p.1, pushInstr s1 (Instruction.LoadLiteral p.1 (Literal.int val)))
    | AstNode.Block bid =>
      genListWith (generate_node c fuel)
        (c.blocks.getD bid.id { nodes := [] }).nodes s
    | AstNode.BinaryOp lhs op rhs =>
      match generate_node c fuel lhs s with
      | (none, s1) => (none, s1)
      | (some l, s1) =>
        match generate_node c fuel rhs s1 with
        | (none, s2) => (none, s2)
        | (some r, s2) =>
          match node_to_operator c op s2 with
          | (none, s3) => (none, s3)
          | (some o, s3) => (some l, pushInstr s3 (Instruction.BinaryOp l o r))
    | other =>
      (none, addError s ("node " ++ reprAst other ++ " not suported yet") nid)

/-- The fuel `generate` runs `generate_node` with: one more than the
node-table length, enough for any AST whose children have smaller ids than
their parents (each nesting level consumes one unit). -/
def fuelOf (c : Compiler) : Nat :=
  c.ast_nodes.length + 1

/-- `IrGenerator::generate`: nothing on an empty node table; otherwise
lower the highest-index node and, only on success, append the terminal
`Return` of its register. -/
def generate (c : Compiler) (s : GenState) : GenState :=
  if c.ast_nodes.isEmpty then s
  else
    match generate_node c (fuelOf c) { id := c.ast_nodes.length - 1 } s with
    | (none, s1) => s1
    | (some reg, s1) => pushInstr s1 (Instruction.Return reg)

/-- `IrGenerator::block`: assemble the `IrBlock`, with placeholder spans
and AST back-references (one per instruction) and empty pools. -/
def block (s : GenState) : IrBlock :=
  { instructions := s.instructions,
    spans := List.replicate s.instructions.length { start := 0, stop := 0 },
    data := [],
    ast := List.replicate s.instructions.length none,
    comments := [],
    register_count := s.register_count,
    file_count := s.file_count }

/-- `IrGenerator::errors`: read accessor for the diagnostic list. -/
def errorsOf (s : GenState) : List SourceError :=
  s.errors

end NuIr

namespace NuIr

/-! ### Step lemmas: one equation per source branch -/

theorem span_to_i64_of_pure_some {c : Compiler} {nid : NodeId} {v : Int}
    (h : spanI64Pure c nid = some v) (s : GenState) :
    span_to_i64 c nid s = (some v, s) := by
  unfold spanI64Pure at h
  unfold span_to_i64 span_to_string
  cases hu : utf8Decode (c.span_bytes nid.id) with
  | none => rw [hu] at h; simp at h
  | some cps =>
    rw [hu] at h
    simp only [Option.some_bind] at h
    simp [h]

theorem span_to_i64_of_pure_none {c : Compiler} {nid : NodeId}
    (h : spanI64Pure c nid = none) (s : GenState) :
    ∃ m, span_to_i64 c nid s = (none, addError s m nid) := by
  unfold spanI64Pure at h
  unfold span_to_i64 span_to_string
  cases hu : utf8Decode (c.span_bytes nid.id) with
  | none => exact ⟨"failed to convert a node to string: invalid utf-8", rfl⟩
  | some cps =>
    rw [hu] at h
    simp only [Option.some_bind] at h
    exact ⟨"failed to convert a node to string: parse error", by simp [h]⟩

theorem node_to_operator_plus {c : Compiler} {nid : NodeId}
    (h : get_node c nid = AstNode.Plus) (s : GenState) :
    node_to_operator c nid s = (some (Operator.math Math.Plus), s) := by
  unfold node_to_operator; rw [h]

theorem node_to_operator_multiply {c : Compiler} {nid : NodeId}
    (h : get_node c nid = AstNode.Multiply) (s : GenState) :
    node_to_operator c nid s = (some (Operator.math Math.Multiply), s) := by
  unfold node_to_operator; rw [h]

theorem node_to_operator_fail {c : Compiler} {nid : NodeId}
    (h1 : get_node c nid ≠ AstNode.Plus) (h2 : get_node c nid ≠ AstNode.Multiply)
    (s : GenState) :
    node_to_operator c nid s =
      (none, addError s ("unrecognized operator " ++ reprAst (get_node c nid)) nid) := by
  unfold node_to_operator
  cases hn : get_node c nid <;> first
    | rfl
    | (exact absurd hn h1)
    | (exact absurd hn h2)

/-- The `AstNode::Int` branch, successful parse: allocate the next register,
emit the load, return the register. -/
theorem generate_node_int_ok {c : Compiler} {nid : NodeId} {v : Int}
    (h1 : get_node c nid = AstNode.Int) (h2 : spanI64Pure c nid = some v)
    (fuel : Nat) (s : GenState) :
    generate_node c (fuel + 1) nid s =
      (some s.register_count,
       { s with register_count := s.register_count + 1,
                allocated := s.allocated ++ [s.register_count],
                instructions := s.instructions ++
                  [Instruction.LoadLiteral s.register_count (Literal.int v)] }) := by
  have hs := span_to_i64_of_pure_some h2
    { s with register_count := s.register_count + 1,
             allocated := s.allocated ++ [s.register_count] }
  simp [generate_node, h1, next_register, pushInstr, hs]

/-- The `AstNode::Int` branch, failed decode or parse: the register is
still allocated, one diagnostic is pushed, no instruction is emitted and
no register is returned. -/
theorem generate_node_int_fail {c : Compiler} {nid : NodeId}
    (h1 : get_node c nid = AstNode.Int) (h2 : spanI64Pure c nid = none)
    (fuel : Nat) (s : GenState) :
    ∃ m, generate_node c (fuel + 1) nid s =
      (none,
       { s with register_count := s.register_count + 1,
                allocated := s.allocated ++ [s.register_count],
                errors := s.errors ++
                  [{ message := m, node_id := nid, severity := Severity.Error }] }) := by
  obtain ⟨m, hm⟩ := span_to_i64_of_pure_none h2
    { s with register_count := s.register_count + 1,
             allocated := s.allocated ++ [s.register_count] }
  refine ⟨m, ?_⟩
  simp [generate_node, h1, next_register, hm, addError]

/-- The `AstNode::Block` branch is the in-order loop over the block's
children. -/
theorem generate_node_block {c : Compiler} {nid : NodeId} {bid : BlockId}
    (h : get_node c nid = AstNode.Block bid) (fuel : Nat) (s : GenState) :
    generate_node c (fuel + 1) nid s =
      genListWith (generate_node c fuel)
        (c.blocks.getD bid.id { nodes := [] }).nodes s := by
  simp [generate_node, h]

/-- The `AstNode::BinaryOp` branch when every part succeeds: left operand
first, then right operand, then operator resolution, then one `BinaryOp`
instruction with the left register as destination; the result register is
the left one. -/
theorem generate_node_binop_ok {c : Compiler} {nid lhs op rhs : NodeId}
    {l r : Nat} {o : Operator} {s s1 s2 s3 : GenState}
    (hn : get_node c nid = AstNode.BinaryOp lhs op rhs) (fuel : Nat)
    (hl : generate_node c fuel lhs s = (some l, s1))
    (hr : generate_node c fuel rhs s1 = (some r, s2))
    (ho : node_to_operator c op s2 = (some o, s3)) :
    generate_node c (fuel + 1) nid s =
      (some l, pushInstr s3 (Instruction.BinaryOp l o r)) := by
  simp [generate_node, hn, hl, hr, ho]

/-- The `AstNode::BinaryOp` branch when the left operand fails: the whole
expression fails with the child's state. -/
theorem generate_node_binop_lhs_fail {c : Compiler} {nid lhs op rhs : NodeId}
    {s s1 : GenState}
    (hn : get_node c nid = AstNode.BinaryOp lhs op rhs) (fuel : Nat)
    (hl : generate_node c fuel lhs s = (none, s1)) :
    generate_node c (fuel + 1) nid s = (none, s1) := by
  simp [generate_node, hn, hl]

/-- The `AstNode::BinaryOp` branch when the right operand fails. -/
theorem generate_node_binop_rhs_fail {c : Compiler} {nid lhs op rhs : NodeId}
    {l : Nat} {s s1 s2 : GenState}
    (hn : get_node c nid = AstNode.BinaryOp lhs op rhs) (fuel : Nat)
    (hl : generate_node c fuel lhs s = (some l, s1))
    (hr : generate_node c fuel rhs s1 = (none, s2)) :
    generate_node c (fuel + 1) nid s = (none, s2) := by
  simp [generate_node, hn, hl, hr]

/-- The `AstNode::BinaryOp` branch when both operands succeed but the
operator node is invalid: both operands' instructions are kept, one
diagnostic referencing the operator node is pushed, and the expression
fails. -/
theorem generate_node_binop_op_fail {c : Compiler} {nid lhs op rhs : NodeId}
    {l r : Nat} {s s1 s2 : GenState}
    (hn : get_node c nid = AstNode.BinaryOp lhs op rhs) (fuel : Nat)
    (hl : generate_node c fuel lhs s = (some l, s1))
    (hr : generate_node c fuel rhs s1 = (some r, s2))
    (h1 : get_node c op ≠ AstNode.Plus) (h2 : get_node c op ≠ AstNode.Multiply) :
    generate_node c (fuel + 1) nid s =
      (none, { s2 with errors := s2.errors ++
        [{ message := "unrecognized operator " ++ reprAst (get_node c op),
           node_id := op, severity := Severity.Error }] }) := by
  have ho := node_to_operator_fail h1 h2 s2
  simp [generate_node, hn, hl, hr, ho, addError]

/-- The catch-all branch: any node kind other than `Int`, `Block` and
`BinaryOp` yields exactly one diagnostic referencing the node's id, leaves
every other part of the state unchanged, and produces no register. -/
theorem generate_node_unsupported {c : Compiler} {nid : NodeId}
    (h1 : get_node c nid ≠ AstNode.Int)
    (h2 : ∀ bid, get_node c nid ≠ AstNode.Block bid)
    (h3 : ∀ lhs op rhs, get_node c nid ≠ AstNode.BinaryOp lhs op rhs)
    (fuel : Nat) (s : GenState) :
    generate_node c (fuel + 1) nid s =
      (none, { s with errors := s.errors ++
        [{ message := "node " ++ reprAst (get_node c nid) ++ " not suported yet",
           node_id := nid, severity := Severity.Error }] }) := by
  cases hn : get_node c nid with
  | Int => exact absurd hn h1
  | Block bid => exact absurd hn (h2 bid)
  | BinaryOp lhs op rhs => exact absurd hn (h3 lhs op rhs)
  | Plus => simp [generate_node, hn, addError]
  | Multiply => simp [generate_node, hn, addError]
  | Garbage => simp [generate_node, hn, addError]

end NuIr

namespace NuIr

/-! ### State evolution: what any lowering step may do to the state -/

/-- Within one pass, any piece of generator code only ever: grows the
register counter, hands out exactly the consecutive register ids from the
old counter value to the new one (ghost trace), appends to the instruction
list, appends to the diagnostic list, and leaves the file counter alone. -/
def Evolve (s s' : GenState) : Prop :=
  s.register_count ≤ s'.register_count ∧
  s'.allocated = s.allocated ++
    List.range' s.register_count (s'.register_count - s.register_count) ∧
  (∃ t, s'.instructions = s.instructions ++ t) ∧
  (∃ t, s'.errors = s.errors ++ t) ∧
  s'.file_count = s.file_count

theorem evolve_refl (s : GenState) : Evolve s s :=
  ⟨Nat.le_refl _, by simp, ⟨[], by simp⟩, ⟨[], by simp⟩, rfl⟩

theorem evolve_trans {s1 s2 s3 : GenState}
    (h12 : Evolve s1 s2) (h23 : Evolve s2 s3) : Evolve s1 s3 := by
  obtain ⟨a1, b1, ⟨t1, i1⟩, ⟨e1, f1⟩, g1⟩ := h12
  obtain ⟨a2, b2, ⟨t2, i2⟩, ⟨e2, f2⟩, g2⟩ := h23
  refine ⟨Nat.le_trans a1 a2, ?_, ⟨t1 ++ t2, by rw [i2, i1, List.append_assoc]⟩,
    ⟨e1 ++ e2, by rw [f2, f1, List.append_assoc]⟩, by rw [g2, g1]⟩
  have h := List.range'_append s1.register_count
    (s2.register_count - s1.register_count)
    (s3.register_count - s2.register_count) 1
  rw [show s1.register_count + 1 * (s2.register_count - s1.register_count) =
      s2.register_count by omega] at h
  rw [show s3.register_count - s2.register_count +
      (s2.register_count - s1.register_count) =
      s3.register_count - s1.register_count by omega] at h
  rw [b2, b1, List.append_assoc, h]

theorem evolve_addError (s : GenState) (m : String) (nid : NodeId) :
    Evolve s (addError s m nid) :=
  ⟨Nat.le_refl _, by simp [addError], ⟨[], by simp [addError]⟩,
   ⟨[{ message := m, node_id := nid, severity := Severity.Error }], rfl⟩, rfl⟩

theorem evolve_pushInstr (s : GenState) (i : Instruction) :
    Evolve s (pushInstr s i) :=
  ⟨Nat.le_refl _, by simp [pushInstr], ⟨[i], rfl⟩, ⟨[], by simp [pushInstr]⟩, rfl⟩

theorem evolve_next_register (s : GenState) :
    Evolve s (next_register s).2 := by
  refine ⟨Nat.le_succ _, ?_, ⟨[], by simp [next_register]⟩,
    ⟨[], by simp [next_register]⟩, rfl⟩
  simp [next_register]

theorem evolve_span_to_i64 (c : Compiler) (nid : NodeId) (s : GenState) :
    Evolve s (span_to_i64 c nid s).2 := by
  cases hp : spanI64Pure c nid with
  | some v => rw [span_to_i64_of_pure_some hp]; exact evolve_refl s
  | none =>
    obtain ⟨m, hm⟩ := span_to_i64_of_pure_none hp s
    rw [hm]
    exact evolve_addError s m nid

theorem evolve_node_to_operator (c : Compiler) (nid : NodeId) (s : GenState) :
    Evolve s (node_to_operator c nid s).2 := by
  unfold node_to_operator
  cases get_node c nid <;>
    first
      | exact evolve_refl s
      | exact evolve_addError s _ nid

theorem genListWith_evolve {f : NodeId → GenState → Option Nat × GenState}
    (hf : ∀ nid s, Evolve s (f nid s).2) :
    ∀ (l : List NodeId) (s : GenState), Evolve s (genListWith f l s).2 := by
  intro l
  induction l with
  | nil => intro s; exact evolve_refl s
  | cons nid rest ih =>
    intro s
    cases rest with
    | nil => exact hf nid s
    | cons nid2 rest2 =>
      cases hx : f nid s with
      | mk o s1 =>
        have h1 := hf nid s
        rw [hx] at h1
        cases o with
        | none => simpa [genListWith, hx] using h1
        | some r =>
          simp only [genListWith, hx]
          exact evolve_trans h1 (ih s1)

theorem generate_node_evolve (c : Compiler) :
    ∀ (fuel : Nat) (nid : NodeId) (s : GenState),
      Evolve s (generate_node c fuel nid s).2 := by
  intro fuel
  induction fuel with
  | zero => intro nid s; exact evolve_refl s
  | succ fuel ih =>
    intro nid s
    cases hn : get_node c nid with
    | Int =>
      cases hp : spanI64Pure c nid with
      | some v =>
        rw [generate_node_int_ok hn hp]
        exact evolve_trans (evolve_next_register s)
          (evolve_pushInstr (next_register s).2
            (Instruction.LoadLiteral s.register_count (Literal.int v)))
      | none =>
        obtain ⟨m, hm⟩ := generate_node_int_fail hn hp fuel s
        rw [hm]
        exact evolve_trans (evolve_next_register s)
          (evolve_addError (next_register s).2 m nid)
    | Block bid =>
      rw [generate_node_block hn]
      exact genListWith_evolve (fun nid s => ih nid s) _ s
    | BinaryOp lhs op rhs =>
      have e1 := ih lhs s
      cases hl : generate_node c fuel lhs s with
      | mk ol s1 =>
        rw [hl] at e1
        cases ol with
        | none => rw [generate_node_binop_lhs_fail hn fuel hl]; exact e1
        | some l =>
          have e2 := ih rhs s1
          cases hr : generate_node c fuel rhs s1 with
          | mk og s2 =>
            rw [hr] at e2
            cases og with
            | none =>
              rw [generate_node_binop_rhs_fail hn fuel hl hr]
              exact evolve_trans e1 e2
            | some r =>
              have e3 := evolve_node_to_operator c op s2
              cases ho : node_to_operator c op s2 with
              | mk oo s3 =>
                rw [ho] at e3
                cases oo with
                | none =>
                  simp only [generate_node, hn, hl, hr, ho]
                  exact evolve_trans e1 (evolve_trans e2 e3)
                | some o =>
                  simp only [generate_node, hn, hl, hr, ho]
                  exact evolve_trans e1 (evolve_trans e2
                    (evolve_trans e3 (evolve_pushInstr s3 (Instruction.BinaryOp l o r))))
    | Plus =>
      rw [generate_node_unsupported (by rw [hn]; intro h; cases h)
        (by intro bid; rw [hn]; intro h; cases h)
        (by intro lhs op rhs; rw [hn]; intro h; cases h) fuel s]
      exact evolve_addError s _ nid
    | Multiply =>
      rw [generate_node_unsupported (by rw [hn]; intro h; cases h)
        (by intro bid; rw [hn]; intro h; cases h)
        (by intro lhs op rhs; rw [hn]; intro h; cases h) fuel s]
      exact evolve_addError s _ nid
    | Garbage =>
      rw [generate_node_unsupported (by rw [hn]; intro h; cases h)
        (by intro bid; rw [hn]; intro h; cases h)
        (by intro lhs op rhs; rw [hn]; intro h; cases h) fuel s]
      exact evolve_addError s _ nid

theorem generate_evolve (c : Compiler) (s : GenState) :
    Evolve s (generate c s) := by
  unfold generate
  cases he : c.ast_nodes.isEmpty with
  | true => simp only [if_true]; exact evolve_refl s
  | false =>
    simp only [Bool.false_eq_true, if_false]
    have e1 := generate_node_evolve c (fuelOf c) { id := c.ast_nodes.length - 1 } s
    cases hx : generate_node c (fuelOf c) { id := c.ast_nodes.length - 1 } s with
    | mk o s1 =>
      rw [hx] at e1
      cases o with
      | none => exact e1
      | some reg => exact evolve_trans e1 (evolve_pushInstr s1 (Instruction.Return reg))

end NuIr

namespace NuIr

/-! ### Registers: definitions and uses inside the emitted sequence -/

/-- The register an instruction defines (writes): the destination of a
load-literal, the left/destination register of a binary-op. -/
def instrDst : Instruction → Option Nat
  | Instruction.LoadLiteral dst _ => some dst
  | Instruction.BinaryOp lhs_dst _ _ => some lhs_dst
  | Instruction.Return _ => none

/-- The registers an instruction reads: the left and right operands of a
binary-op, the source of a return. -/
def readRegs : Instruction → List Nat
  | Instruction.LoadLiteral _ _ => []
  | Instruction.BinaryOp lhs_dst _ rhs => [lhs_dst, rhs]
  | Instruction.Return src => [src]

/-- Extend the list of defined registers with an instruction's destination. -/
def updDef (D : List Nat) (i : Instruction) : List Nat :=
  match instrDst i with
  | some d => D ++ [d]
  | none => D

/-- The registers defined after executing `l`, starting from `D`. -/
def definedAfter (D : List Nat) (l : List Instruction) : List Nat :=
  l.foldl updDef D

/-- Every register an instruction of the list reads is defined by a
strictly earlier instruction (or belongs to the initially-defined set
`D`). -/
def UsesOkFrom (D : List Nat) : List Instruction → Prop
  | [] => True
  | i :: rest => (∀ r ∈ readRegs i, r ∈ D) ∧ UsesOkFrom (updDef D i) rest

/-- Def-before-use for a whole instruction sequence: every register read
by an instruction was defined as the destination of an earlier instruction
of the same sequence. -/
def UsesOk (l : List Instruction) : Prop :=
  UsesOkFrom [] l

theorem mem_updDef {r : Nat} {D : List Nat} (i : Instruction) (h : r ∈ D) :
    r ∈ updDef D i := by
  unfold updDef
  cases instrDst i with
  | none => exact h
  | some d => exact List.mem_append_left _ h

theorem mem_definedAfter {r : Nat} {D : List Nat} (h : r ∈ D) :
    ∀ l : List Instruction, r ∈ definedAfter D l := by
  intro l
  induction l generalizing D with
  | nil => exact h
  | cons i rest ih => exact ih (mem_updDef i h)

theorem definedAfter_append (D : List Nat) (l1 l2 : List Instruction) :
    definedAfter D (l1 ++ l2) = definedAfter (definedAfter D l1) l2 := by
  unfold definedAfter
  rw [List.foldl_append]

theorem usesOkFrom_append_one (D : List Nat) (l : List Instruction)
    (i : Instruction) :
    UsesOkFrom D (l ++ [i]) ↔
      UsesOkFrom D l ∧ ∀ r ∈ readRegs i, r ∈ definedAfter D l := by
  induction l generalizing D with
  | nil => simp [UsesOkFrom, definedAfter]
  | cons j rest ih =>
    simp only [List.cons_append, UsesOkFrom, List.append_eq]
    rw [ih (updDef D j)]
    simp [definedAfter, and_assoc]

theorem span_to_i64_instructions (c : Compiler) (nid : NodeId) (s : GenState) :
    (span_to_i64 c nid s).2.instructions = s.instructions := by
  cases hp : spanI64Pure c nid with
  | some v => rw [span_to_i64_of_pure_some hp]
  | none =>
    obtain ⟨m, hm⟩ := span_to_i64_of_pure_none hp s
    rw [hm]
    rfl

theorem node_to_operator_state (c : Compiler) (nid : NodeId) (s : GenState) :
    (node_to_operator c nid s).2 = s ∨
      ∃ m, (node_to_operator c nid s).2 = addError s m nid := by
  unfold node_to_operator
  cases get_node c nid <;>
    first
      | exact Or.inl rfl
      | exact Or.inr ⟨_, rfl⟩

theorem node_to_operator_instructions (c : Compiler) (nid : NodeId)
    (s : GenState) :
    (node_to_operator c nid s).2.instructions = s.instructions := by
  cases node_to_operator_state c nid s with
  | inl h => rw [h]
  | inr h => obtain ⟨m, hm⟩ := h; rw [hm]; rfl

/-- The def-before-use invariant carried by child lowering, together with:
a successfully lowered node's register is defined by some instruction of
the state it returns. -/
def UsesInv (out : Option Nat × GenState) (m : Prop) : Prop :=
  m → (UsesOk out.2.instructions ∧
    ∀ rg, out.1 = some rg → rg ∈ definedAfter [] out.2.instructions)

theorem genListWith_uses {f : NodeId → GenState → Option Nat × GenState}
    (hf : ∀ nid s, UsesInv (f nid s) (UsesOk s.instructions)) :
    ∀ (l : List NodeId) (s : GenState),
      UsesInv (genListWith f l s) (UsesOk s.instructions) := by
  intro l
  induction l with
  | nil => intro s h; exact ⟨h, by intro rg hrg; cases hrg⟩
  | cons nid rest ih =>
    intro s h
    cases rest with
    | nil => exact hf nid s h
    | cons nid2 rest2 =>
      have h1 := hf nid s h
      cases hx : f nid s with
      | mk o s1 =>
        rw [hx] at h1
        cases o with
        | none =>
          simp only [genListWith, hx]
          exact ⟨h1.1, by intro rg hrg; cases hrg⟩
        | some r =>
          simp only [genListWith, hx]
          exact ih s1 h1.1

end NuIr

namespace NuIr

theorem generate_node_uses (c : Compiler) :
    ∀ (fuel : Nat) (nid : NodeId) (s : GenState),
      UsesInv (generate_node c fuel nid s) (UsesOk s.instructions) := by
  intro fuel
  induction fuel with
  | zero => intro nid s h; exact ⟨h, by intro rg hrg; cases hrg⟩
  | succ fuel ih =>
    intro nid s h
    cases hn : get_node c nid with
    | Int =>
      cases hp : spanI64Pure c nid with
      | some v =>
        rw [generate_node_int_ok hn hp]
        constructor
        · exact (usesOkFrom_append_one [] s.instructions _).mpr
            ⟨h, by intro r hr; cases hr⟩
        · intro rg hrg
          have hrr : rg = s.register_count := (Option.some.inj hrg).symm
          subst hrr
          rw [definedAfter_append]
          simp [definedAfter, updDef, instrDst]
      | none =>
        obtain ⟨m, hm⟩ := generate_node_int_fail hn hp fuel s
        rw [hm]
        exact ⟨h, by intro rg hrg; cases hrg⟩
    | Block bid =>
      rw [generate_node_block hn]
      exact genListWith_uses (fun nid s => ih nid s) _ s h
    | BinaryOp lhs op rhs =>
      have u1 := ih lhs s
      cases hl : generate_node c fuel lhs s with
      | mk ol s1 =>
        rw [hl] at u1
        cases ol with
        | none =>
          rw [generate_node_binop_lhs_fail hn fuel hl]
          exact ⟨(u1 h).1, by intro rg hrg; cases hrg⟩
        | some l =>
          have hu1 := u1 h
          have u2 := ih rhs s1
          cases hr : generate_node c fuel rhs s1 with
          | mk og s2 =>
            rw [hr] at u2
            cases og with
            | none =>
              rw [generate_node_binop_rhs_fail hn fuel hl hr]
              exact ⟨(u2 hu1.1).1, by intro rg hrg; cases hrg⟩
            | some r =>
              have hu2 := u2 hu1.1
              have ev2 := generate_node_evolve c fuel rhs s1
              rw [hr] at ev2
              obtain ⟨t2, hi2⟩ := ev2.2.2.1
              have hin3 := node_to_operator_instructions c op s2
              cases ho : node_to_operator c op s2 with
              | mk oo s3 =>
                rw [ho] at hin3
                cases oo with
                | none =>
                  simp only [generate_node, hn, hl, hr, ho]
                  refine ⟨?_, by intro rg hrg; cases hrg⟩
                  show UsesOk s3.instructions
                  rw [hin3]
                  exact hu2.1
                | some o =>
                  simp only [generate_node, hn, hl, hr, ho]
                  have hlmem : l ∈ definedAfter [] s2.instructions := by
                    rw [hi2, definedAfter_append]
                    exact mem_definedAfter (hu1.2 l rfl) t2
                  constructor
                  · show UsesOk (pushInstr s3 (Instruction.BinaryOp l o r)).instructions
                    simp only [pushInstr]
                    rw [hin3]
                    refine (usesOkFrom_append_one [] s2.instructions _).mpr
                      ⟨hu2.1, ?_⟩
                    intro rr hrr
                    simp only [readRegs, List.mem_cons, List.not_mem_nil,
                      or_false] at hrr
                    cases hrr with
                    | inl hcase => subst hcase; exact hlmem
                    | inr hcase => subst hcase; exact hu2.2 _ rfl
                  · intro rg hrg
                    have hmem : l ∈ definedAfter []
                        (pushInstr s3 (Instruction.BinaryOp l o r)).instructions := by
                      simp only [pushInstr]
                      rw [hin3, definedAfter_append]
                      exact mem_definedAfter hlmem _
                    exact (Option.some.inj hrg) ▸ hmem
    | Plus =>
      simp only [generate_node, hn]
      exact ⟨h, by intro rg hrg; cases hrg⟩
    | Multiply =>
      simp only [generate_node, hn]
      exact ⟨h, by intro rg hrg; cases hrg⟩
    | Garbage =>
      simp only [generate_node, hn]
      exact ⟨h, by intro rg hrg; cases hrg⟩

theorem generate_uses (c : Compiler) (s : GenState) (h : UsesOk s.instructions) :
    UsesOk (generate c s).instructions := by
  unfold generate
  by_cases he : c.ast_nodes.isEmpty = true
  · simp only [he, if_true]
    exact h
  · simp only [if_neg he]
    have hu := generate_node_uses c (fuelOf c) { id := c.ast_nodes.length - 1 } s h
    rcases hx : generate_node c (fuelOf c) { id := c.ast_nodes.length - 1 } s with
      ⟨_ | r9, s9⟩
    · rw [hx] at hu
      exact hu.1
    · rw [hx] at hu
      have key : UsesOk (pushInstr s9 (Instruction.Return r9)).instructions := by
        simp only [pushInstr]
        refine (usesOkFrom_append_one [] s9.instructions _).mpr ⟨hu.1, ?_⟩
        intro r2 hr2
        simp only [readRegs, List.mem_singleton] at hr2
        subst hr2
        exact hu.2 _ rfl
      exact key

end NuIr

namespace NuIr

/-! ### Helper equations for `generate`, and concrete example inputs -/

theorem isEmpty_false_of_ne {c : Compiler} (h : c.ast_nodes ≠ []) :
    c.ast_nodes.isEmpty = false := by
  cases hcn : c.ast_nodes with
  | nil => exact absurd hcn h
  | cons a t => rfl

theorem generate_eq_of_empty {c : Compiler} (h : c.ast_nodes = [])
    (s : GenState) : generate c s = s := by
  unfold generate
  rw [h]
  rfl

theorem generate_eq_of_top_none {c : Compiler} {s s1 : GenState}
    (hne : c.ast_nodes ≠ [])
    (h : generate_node c (fuelOf c) { id := c.ast_nodes.length - 1 } s =
      (none, s1)) :
    generate c s = s1 := by
  unfold generate
  simp only [isEmpty_false_of_ne hne, Bool.false_eq_true, if_false, h]

theorem generate_eq_of_top_some {c : Compiler} {s s1 : GenState} {reg : Nat}
    (hne : c.ast_nodes ≠ [])
    (h : generate_node c (fuelOf c) { id := c.ast_nodes.length - 1 } s =
      (some reg, s1)) :
    generate c s = pushInstr s1 (Instruction.Return reg) := by
  unfold generate
  simp only [isEmpty_false_of_ne hne, Bool.false_eq_true, if_false, h]

/-- The count of distinct registers actually defined (written) by a list of
instructions. -/
def definedCount (l : List Instruction) : Nat :=
  (definedAfter [] l).toFinset.card

theorem definedAfter_one (D : List Nat) (i : Instruction) :
    definedAfter D [i] = updDef D i :=
  rfl

theorem toFinset_append_one (D : List Nat) (d : Nat) :
    (D ++ [d]).toFinset = insert d D.toFinset := by
  rw [List.toFinset_append]
  ext x
  simp [or_comm]

theorem definedCount_append_le (l : List Instruction) (i : Instruction) :
    definedCount (l ++ [i]) ≤ definedCount l + 1 := by
  unfold definedCount
  rw [definedAfter_append, definedAfter_one]
  unfold updDef
  cases instrDst i with
  | none => exact Nat.le_succ _
  | some d =>
    rw [toFinset_append_one]
    exact Finset.card_insert_le d _

theorem definedCount_append_mem {l : List Instruction} {i : Instruction}
    {d : Nat} (h : instrDst i = some d) (hd : d ∈ definedAfter [] l) :
    definedCount (l ++ [i]) = definedCount l := by
  unfold definedCount
  rw [definedAfter_append, definedAfter_one]
  unfold updDef
  rw [h, toFinset_append_one,
    Finset.insert_eq_self.mpr (List.mem_toFinset.mpr hd)]

theorem definedCount_append_none {l : List Instruction} {i : Instruction}
    (h : instrDst i = none) :
    definedCount (l ++ [i]) = definedCount l := by
  unfold definedCount
  rw [definedAfter_append, definedAfter_one]
  unfold updDef
  rw [h]

/-- `definedCount` grows no faster than the register counter: the step from
`s` to `s'` keeps the gap between counter and defined registers. -/
def SlackLe (s s' : GenState) : Prop :=
  definedCount s'.instructions + s.register_count ≤
    definedCount s.instructions + s'.register_count

theorem slackLe_refl (s : GenState) : SlackLe s s := Nat.le_refl _

theorem slackLe_trans {s1 s2 s3 : GenState}
    (h1 : SlackLe s1 s2) (h2 : SlackLe s2 s3) : SlackLe s1 s3 := by
  unfold SlackLe at h1 h2 ⊢
  omega

/-- The source's block loop, run over a successful prefix: lowering the
listed children in order succeeds and ends in the given state. -/
def RunsTo (f : NodeId → GenState → Option Nat × GenState) :
    List NodeId → GenState → GenState → Prop
  | [], s, sEnd => sEnd = s
  | nid :: rest, s, sEnd =>
    ∃ r s1, f nid s = (some r, s1) ∧ RunsTo f rest s1 sEnd

/-- If the loop reaches a child that fails to lower, the whole block fails
with that child's state. -/
theorem genListWith_fail_at {f : NodeId → GenState → Option Nat × GenState} :
    ∀ (l1 : List NodeId) {child : NodeId} (rest : List NodeId)
      {s s0 s1 : GenState},
      RunsTo f l1 s s0 → f child s0 = (none, s1) →
      genListWith f (l1 ++ child :: rest) s = (none, s1) := by
  intro l1
  induction l1 with
  | nil =>
    intro child rest s s0 s1 hrun hc
    have hs : s0 = s := hrun
    subst hs
    cases rest with
    | nil => exact hc
    | cons y t => simp only [List.nil_append, genListWith, hc]
  | cons x l1t ih =>
    intro child rest s s0 s1 hrun hc
    obtain ⟨r, sx, hx, hrun2⟩ := hrun
    cases hT : l1t ++ child :: rest with
    | nil => exact absurd hT (List.append_ne_nil_of_right_ne_nil l1t (by simp))
    | cons y t =>
      have step : genListWith f (x :: (l1t ++ child :: rest)) s =
          genListWith f (l1t ++ child :: rest) sx := by
        rw [hT]
        simp only [genListWith, hx]
      rw [List.cons_append, step]
      exact ih rest hrun2 hc

/-- A failing child anywhere in a block fails the enclosing block node with
the child's state. -/
theorem generate_node_block_member_fail {c : Compiler} {nid : NodeId}
    {bid : BlockId} {l1 : List NodeId} {child : NodeId} {rest : List NodeId}
    {s s0 s1 : GenState}
    (hn : get_node c nid = AstNode.Block bid) (fuel : Nat)
    (hl : (c.blocks.getD bid.id { nodes := [] }).nodes = l1 ++ child :: rest)
    (hrun : RunsTo (generate_node c fuel) l1 s s0)
    (hc : generate_node c fuel child s0 = (none, s1)) :
    generate_node c (fuel + 1) nid s = (none, s1) := by
  rw [generate_node_block hn, hl]
  exact genListWith_fail_at l1 rest hrun hc

theorem genListWith_slack {f : NodeId → GenState → Option Nat × GenState}
    (hfu : ∀ nid s, UsesInv (f nid s) (UsesOk s.instructions))
    (hfs : ∀ nid s, UsesOk s.instructions → SlackLe s (f nid s).2) :
    ∀ (l : List NodeId) (s : GenState), UsesOk s.instructions →
      SlackLe s (genListWith f l s).2 := by
  intro l
  induction l with
  | nil => intro s h; exact slackLe_refl s
  | cons nid rest ih =>
    intro s h
    cases rest with
    | nil => exact hfs nid s h
    | cons nid2 rest2 =>
      have h1 := hfs nid s h
      have hu := hfu nid s h
      cases hx : f nid s with
      | mk o s1 =>
        rw [hx] at h1 hu
        cases o with
        | none => simp only [genListWith, hx]; exact h1
        | some r =>
          simp only [genListWith, hx]
          exact slackLe_trans h1 (ih s1 hu.1)

/-- Every lowering step lets the register counter grow at least as fast as
the count of distinct defined registers: a load defines one fresh register
and bumps the counter; a binary-op redefines an already-defined register;
failures leave the instructions alone while possibly consuming a
register. -/
theorem generate_node_slack (c : Compiler) :
    ∀ (fuel : Nat) (nid : NodeId) (s : GenState),
      UsesOk s.instructions → SlackLe s (generate_node c fuel nid s).2 := by
  intro fuel
  induction fuel with
  | zero => intro nid s h; exact slackLe_refl s
  | succ fuel ih =>
    intro nid s h
    cases hn : get_node c nid with
    | Int =>
      cases hp : spanI64Pure c nid with
      | some v =>
        rw [generate_node_int_ok hn hp]
        have hle := definedCount_append_le s.instructions
          (Instruction.LoadLiteral s.register_count (Literal.int v))
        show definedCount (s.instructions ++
            [Instruction.LoadLiteral s.register_count (Literal.int v)]) +
            s.register_count ≤
          definedCount s.instructions + (s.register_count + 1)
        omega
      | none =>
        obtain ⟨m, hm⟩ := generate_node_int_fail hn hp fuel s
        rw [hm]
        show definedCount s.instructions + s.register_count ≤
          definedCount s.instructions + (s.register_count + 1)
        omega
    | Block bid =>
      rw [generate_node_block hn]
      exact genListWith_slack (fun nid s => generate_node_uses c fuel nid s)
        (fun nid s => ih nid s) _ s h
    | BinaryOp lhs op rhs =>
      have sl1 := ih lhs s h
      have u1 := generate_node_uses c fuel lhs s
      cases hl : generate_node c fuel lhs s with
      | mk ol s1 =>
        rw [hl] at sl1 u1
        cases ol with
        | none => rw [generate_node_binop_lhs_fail hn fuel hl]; exact sl1
        | some l =>
          have hu1 := u1 h
          have sl2 := ih rhs s1 hu1.1
          cases hr : generate_node c fuel rhs s1 with
          | mk og s2 =>
            rw [hr] at sl2
            cases og with
            | none =>
              rw [generate_node_binop_rhs_fail hn fuel hl hr]
              exact slackLe_trans sl1 sl2
            | some r =>
              have ev2 := generate_node_evolve c fuel rhs s1
              rw [hr] at ev2
              obtain ⟨t2, hi2⟩ := ev2.2.2.1
              have hlmem : l ∈ definedAfter [] s2.instructions := by
                rw [hi2, definedAfter_append]
                exact mem_definedAfter (hu1.2 l rfl) t2
              have hin3 := node_to_operator_instructions c op s2
              have hst3 := node_to_operator_state c op s2
              cases ho : node_to_operator c op s2 with
              | mk oo s3 =>
                rw [ho] at hin3 hst3
                have hrc3 : s3.register_count = s2.register_count := by
                  cases hst3 with
                  | inl hh =>
                    have hs3 : s3 = s2 := hh
                    rw [hs3]
                  | inr hh =>
                    obtain ⟨m, hm⟩ := hh
                    have hs3 : s3 = addError s2 m op := hm
                    rw [hs3]
                    rfl
                cases oo with
                | none =>
                  simp only [generate_node, hn, hl, hr, ho]
                  have e3 : SlackLe s2 s3 := by
                    unfold SlackLe
                    rw [hin3, hrc3]
                  exact slackLe_trans sl1 (slackLe_trans sl2 e3)
                | some o =>
                  simp only [generate_node, hn, hl, hr, ho]
                  have heq : definedCount
                      (pushInstr s3 (Instruction.BinaryOp l o r)).instructions =
                      definedCount s2.instructions := by
                    show definedCount
                        (s3.instructions ++ [Instruction.BinaryOp l o r]) =
                      definedCount s2.instructions
                    rw [hin3]
                    exact definedCount_append_mem rfl hlmem
                  have e3 : SlackLe s2 (pushInstr s3 (Instruction.BinaryOp l o r)) := by
                    unfold SlackLe
                    rw [heq]
                    show definedCount s2.instructions + s2.register_count ≤
                      definedCount s2.instructions + s3.register_count
                    rw [hrc3]
                  exact slackLe_trans sl1 (slackLe_trans sl2 e3)
    | Plus =>
      simp only [generate_node, hn]
      show definedCount s.instructions + s.register_count ≤
        definedCount s.instructions + s.register_count
      exact Nat.le_refl _
    | Multiply =>
      simp only [generate_node, hn]
      show definedCount s.instructions + s.register_count ≤
        definedCount s.instructions + s.register_count
      exact Nat.le_refl _
    | Garbage =>
      simp only [generate_node, hn]
      show definedCount s.instructions + s.register_count ≤
        definedCount s.instructions + s.register_count
      exact Nat.le_refl _

theorem runsTo_uses_slack (c : Compiler) (fuel : Nat) :
    ∀ (l : List NodeId) {s s0 : GenState},
      RunsTo (generate_node c fuel) l s s0 → UsesOk s.instructions →
      UsesOk s0.instructions ∧ SlackLe s s0 := by
  intro l
  induction l with
  | nil =>
    intro s s0 hrun h
    have hs : s0 = s := hrun
    subst hs
    exact ⟨h, slackLe_refl _⟩
  | cons nid rest ih =>
    intro s s0 hrun h
    obtain ⟨r, s1, hx, hrun2⟩ := hrun
    have hu := generate_node_uses c fuel nid s h
    have hsl := generate_node_slack c fuel nid s h
    rw [hx] at hu hsl
    obtain ⟨h2, hsl2⟩ := ih hrun2 hu.1
    exact ⟨h2, slackLe_trans hsl hsl2⟩

/-- The run of `generate_node` on this node from this state reaches an
integer literal whose span text fails to decode or parse: the node is such
a literal, or the failure happens inside the left operand, inside the
right operand after the left succeeded, or inside a block member after the
earlier members succeeded. -/
inductive FailsLit (c : Compiler) : Nat → NodeId → GenState → Prop where
  | here (fuel : Nat) (nid : NodeId) (s : GenState) :
      get_node c nid = AstNode.Int → spanI64Pure c nid = none →
      FailsLit c (fuel + 1) nid s
  | binop_left (fuel : Nat) (nid lhs op rhs : NodeId) (s : GenState) :
      get_node c nid = AstNode.BinaryOp lhs op rhs →
      FailsLit c fuel lhs s →
      FailsLit c (fuel + 1) nid s
  | binop_right (fuel : Nat) (nid lhs op rhs : NodeId) (l : Nat)
      (s s1 : GenState) :
      get_node c nid = AstNode.BinaryOp lhs op rhs →
      generate_node c fuel lhs s = (some l, s1) →
      FailsLit c fuel rhs s1 →
      FailsLit c (fuel + 1) nid s
  | block_member (fuel : Nat) (nid : NodeId) (bid : BlockId)
      (l1 : List NodeId) (child : NodeId) (rest : List NodeId)
      (s s0 : GenState) :
      get_node c nid = AstNode.Block bid →
      (c.blocks.getD bid.id { nodes := [] }).nodes = l1 ++ child :: rest →
      RunsTo (generate_node c fuel) l1 s s0 →
      FailsLit c fuel child s0 →
      FailsLit c (fuel + 1) nid s

theorem get_node_of_nil {c : Compiler} (nid : NodeId)
    (h : c.ast_nodes = []) : get_node c nid = AstNode.Garbage := by
  unfold get_node
  rw [h]
  cases hi : nid.id <;> rfl

theorem failslit_ne_nil {c : Compiler} {fuel : Nat} {nid : NodeId}
    {s : GenState} (h : FailsLit c fuel nid s) : c.ast_nodes ≠ [] := by
  intro hnil
  have hg : ∀ nid2 : NodeId, get_node c nid2 = AstNode.Garbage :=
    fun nid2 => get_node_of_nil nid2 hnil
  cases h <;> simp_all [hg]

/-- A run that reaches a failing literal returns no register, and strictly
widens the gap between the register counter and the count of defined
registers. -/
theorem failslit_none_strict (c : Compiler) :
    ∀ (fuel : Nat) (nid : NodeId) (s : GenState),
      FailsLit c fuel nid s → UsesOk s.instructions →
      (generate_node c fuel nid s).1 = none ∧
      definedCount (generate_node c fuel nid s).2.instructions +
          s.register_count <
        definedCount s.instructions +
          (generate_node c fuel nid s).2.register_count := by
  intro fuel0 nid0 s0 h
  induction h with
  | here fuel nid st h1 h2 =>
    intro _
    obtain ⟨m, hm⟩ := generate_node_int_fail h1 h2 fuel st
    rw [hm]
    refine ⟨rfl, ?_⟩
    show definedCount st.instructions + st.register_count <
      definedCount st.instructions + (st.register_count + 1)
    omega
  | binop_left fuel nid lhs op rhs st h1 hf ih =>
    intro hu
    obtain ⟨hnone, hlt⟩ := ih hu
    cases hl : generate_node c fuel lhs st with
    | mk ol s1 =>
      rw [hl] at hnone hlt
      cases ol with
      | some _ => exact Option.noConfusion hnone
      | none =>
        rw [generate_node_binop_lhs_fail h1 fuel hl]
        exact ⟨rfl, hlt⟩
  | binop_right fuel nid lhs op rhs l st s1 h1 hl hf ih =>
    intro hu
    have hu1 := generate_node_uses c fuel lhs st hu
    have hs1 := generate_node_slack c fuel lhs st hu
    rw [hl] at hu1 hs1
    obtain ⟨hnone, hlt⟩ := ih hu1.1
    cases hr : generate_node c fuel rhs s1 with
    | mk og s2 =>
      rw [hr] at hnone hlt
      cases og with
      | some _ => exact Option.noConfusion hnone
      | none =>
        rw [generate_node_binop_rhs_fail h1 fuel hl hr]
        refine ⟨rfl, ?_⟩
        have hs1h : definedCount s1.instructions + st.register_count ≤
            definedCount st.instructions + s1.register_count := hs1
        have hlth : definedCount s2.instructions + s1.register_count <
            definedCount s1.instructions + s2.register_count := hlt
        show definedCount s2.instructions + st.register_count <
          definedCount st.instructions + s2.register_count
        omega
  | block_member fuel nid bid l1 child rest st s1 h1 hl hrun hf ih =>
    intro hu
    obtain ⟨hu0, hsl⟩ := runsTo_uses_slack c fuel l1 hrun hu
    obtain ⟨hnone, hlt⟩ := ih hu0
    cases hc : generate_node c fuel child s1 with
    | mk oc s2 =>
      rw [hc] at hnone hlt
      cases oc with
      | some _ => exact Option.noConfusion hnone
      | none =>
        rw [generate_node_block_member_fail h1 fuel hl hrun hc]
        refine ⟨rfl, ?_⟩
        have hslh : definedCount s1.instructions + st.register_count ≤
            definedCount st.instructions + s1.register_count := hsl
        have hlth : definedCount s2.instructions + s1.register_count <
            definedCount s1.instructions + s2.register_count := hlt
        show definedCount s2.instructions + st.register_count <
          definedCount st.instructions + s2.register_count
        omega

/-- The generator state after lowering one integer literal of value `v1`
from the fresh state. -/
def litS1 (v1 : Int) : GenState :=
  { errors := [], instructions := [Instruction.LoadLiteral 0 (Literal.int v1)],
    register_count := 1, file_count := 0, allocated := [0] }

/-- The generator state after lowering two integer literals of values
`v1` and `v2` from the fresh state. -/
def litS2 (v1 v2 : Int) : GenState :=
  { errors := [],
    instructions := [Instruction.LoadLiteral 0 (Literal.int v1),
      Instruction.LoadLiteral 1 (Literal.int v2)],
    register_count := 2, file_count := 0, allocated := [0, 1] }

/-- Example parse result: the program `1 + 2` as the parser lays it out
(children before parents, the top-level node at the highest index). -/
def exAdd : Compiler :=
  { ast_nodes := [AstNode.Int, AstNode.Int, AstNode.Plus,
      AstNode.BinaryOp { id := 0 } { id := 2 } { id := 1 }],
    blocks := [],
    span_bytes := fun n => if n = 0 then [0x31] else if n = 1 then [0x32] else [] }

/-- The generator state after lowering the left literal of `exAdd`. -/
def exAddS1 : GenState :=
  { errors := [], instructions := [Instruction.LoadLiteral 0 (Literal.int 1)],
    register_count := 1, file_count := 0, allocated := [0] }

/-- The generator state after lowering both literals of `exAdd`. -/
def exAddS2 : GenState :=
  { errors := [],
    instructions := [Instruction.LoadLiteral 0 (Literal.int 1),
      Instruction.LoadLiteral 1 (Literal.int 2)],
    register_count := 2, file_count := 0, allocated := [0, 1] }

/-- Example parse result: a lone integer literal whose span text is `abc`. -/
def exBadLit : Compiler :=
  { ast_nodes := [AstNode.Int], blocks := [],
    span_bytes := fun _ => [0x61, 0x62, 0x63] }

/-- Example parse result: a lone node of an unsupported kind. -/
def exUnsup : Compiler :=
  { ast_nodes := [AstNode.Garbage], blocks := [], span_bytes := fun _ => [] }

/-- Example parse result: `1 ? 2` — a binary operation whose operator
position holds an unsupported node. -/
def exBadOp : Compiler :=
  { ast_nodes := [AstNode.Int, AstNode.Int, AstNode.Garbage,
      AstNode.BinaryOp { id := 0 } { id := 2 } { id := 1 }],
    blocks := [],
    span_bytes := fun n => if n = 0 then [0x31] else if n = 1 then [0x32] else [] }

/-- Example parse result: a binary operation whose left operand is an
unsupported node. -/
def exBadLhs : Compiler :=
  { ast_nodes := [AstNode.Garbage, AstNode.Int, AstNode.Plus,
      AstNode.BinaryOp { id := 0 } { id := 2 } { id := 1 }],
    blocks := [],
    span_bytes := fun n => if n = 1 then [0x32] else [] }

/-- Example parse result: an empty node table. -/
def exEmpty : Compiler :=
  { ast_nodes := [], blocks := [], span_bytes := fun _ => [] }

/-- Example parse result: a binary operation whose right operand is an
unsupported node. -/
def exBadRhs : Compiler :=
  { ast_nodes := [AstNode.Int, AstNode.Garbage, AstNode.Plus,
      AstNode.BinaryOp { id := 0 } { id := 2 } { id := 1 }],
    blocks := [],
    span_bytes := fun n => if n = 0 then [0x31] else [] }

/-- Example parse result: a block whose second member is an unsupported
node. -/
def exBlk : Compiler :=
  { ast_nodes := [AstNode.Int, AstNode.Garbage, AstNode.Block { id := 0 }],
    blocks := [{ nodes := [{ id := 0 }, { id := 1 }] }],
    span_bytes := fun n => if n = 0 then [0x31] else [] }

/-- The state after loading the literal `1` and then failing on an
unsupported node with id 1. -/
def litS1Err : GenState :=
  { errors := [{ message := "node Garbage not suported yet",
                 node_id := { id := 1 }, severity := Severity.Error }],
    instructions := [Instruction.LoadLiteral 0 (Literal.int 1)],
    register_count := 1, file_count := 0, allocated := [0] }

/-- Example parse result: the program `1 + abc` — a binary addition whose
right literal has unparseable span text. -/
def exAddBad : Compiler :=
  { ast_nodes := [AstNode.Int, AstNode.Int, AstNode.Plus,
      AstNode.BinaryOp { id := 0 } { id := 2 } { id := 1 }],
    blocks := [],
    span_bytes := fun n => if n = 0 then [0x31] else [0x61, 0x62, 0x63] }

/-- The pass over `exAddBad` reaches a failing literal: inside the right
operand of the top-level binary operation, after the left operand lowered
successfully. -/
theorem exAddBad_failslit :
    FailsLit exAddBad (fuelOf exAddBad) { id := 3 } newState :=
  FailsLit.binop_right 4 { id := 3 } { id := 0 } { id := 2 } { id := 1 } 0
    newState (litS1 1) (by decide) (by decide)
    (FailsLit.here 3 { id := 1 } (litS1 1) (by decide) (by decide))

end NuIr

namespace NuIr

/-! ### The claims -/

/-- C1: lowering a binary-operation node lowers the left operand first,
then the right operand from the left operand's resulting state (no
short-circuiting), then resolves the operator node to a semantic operator
code, and emits one binary-op instruction whose destination/left register
is the left operand's register and whose second operand is the right
operand's register; the expression's value is that same left register. -/
theorem claim1_binary_op_lowering (c : Compiler) (fuel : Nat)
    (nid lhs op rhs : NodeId) (l r : Nat) (o : Operator)
    (s s1 s2 s3 : GenState)
    (hn : get_node c nid = AstNode.BinaryOp lhs op rhs)
    (hl : generate_node c fuel lhs s = (some l, s1))
    (hr : generate_node c fuel rhs s1 = (some r, s2))
    (ho : node_to_operator c op s2 = (some o, s3)) :
    generate_node c (fuel + 1) nid s =
      (some l,
       { s3 with instructions := s3.instructions ++ [Instruction.BinaryOp l o r] }) :=
  generate_node_binop_ok hn fuel hl hr ho

/-- Witness for C1: lowering the top node of `1 + 2` runs left literal,
right literal, operator, and emits `BinaryOp 0 Plus 1`, returning
register 0. -/
theorem claim1_witness :
    generate_node exAdd 4 { id := 3 } newState =
      (some 0,
       { exAddS2 with instructions := exAddS2.instructions ++
           [Instruction.BinaryOp 0 (Operator.math Math.Plus) 1] }) :=
  claim1_binary_op_lowering exAdd 3 { id := 3 } { id := 0 } { id := 2 } { id := 1 }
    0 1 (Operator.math Math.Plus) newState exAddS1 exAddS2 exAddS2
    (by decide) (by decide) (by decide) (by decide)

/-- C2: an unsupported node kind yields exactly one Error diagnostic
referencing that node's id and no register, leaving everything else (in
particular previously collected diagnostics) intact; a failing child in
any parent position — left operand, right operand, or any member of a
block — makes that immediate parent fail with the child's state; an
invalid node in operator position yields one diagnostic referencing the
operator node and fails only the enclosing binary operation, keeping both
operands' already-emitted instructions and diagnostics. -/
theorem claim2_unsupported_node_diagnostics (c : Compiler) (fuel : Nat)
    (s : GenState) :
    (∀ nid : NodeId,
      get_node c nid ≠ AstNode.Int →
      (∀ bid, get_node c nid ≠ AstNode.Block bid) →
      (∀ lhs op rhs, get_node c nid ≠ AstNode.BinaryOp lhs op rhs) →
      generate_node c (fuel + 1) nid s =
        (none, { s with errors := s.errors ++
          [{ message := "node " ++ reprAst (get_node c nid) ++ " not suported yet",
             node_id := nid, severity := Severity.Error }] })) ∧
    (∀ (nid lhs op rhs : NodeId) (s1 : GenState),
      get_node c nid = AstNode.BinaryOp lhs op rhs →
      generate_node c fuel lhs s = (none, s1) →
      generate_node c (fuel + 1) nid s = (none, s1)) ∧
    (∀ (nid lhs op rhs : NodeId) (l : Nat) (s1 s2 : GenState),
      get_node c nid = AstNode.BinaryOp lhs op rhs →
      generate_node c fuel lhs s = (some l, s1) →
      generate_node c fuel rhs s1 = (none, s2) →
      generate_node c (fuel + 1) nid s = (none, s2)) ∧
    (∀ (nid : NodeId) (bid : BlockId) (l1 : List NodeId) (child : NodeId)
       (rest : List NodeId) (s0 s1 : GenState),
      get_node c nid = AstNode.Block bid →
      (c.blocks.getD bid.id { nodes := [] }).nodes = l1 ++ child :: rest →
      RunsTo (generate_node c fuel) l1 s s0 →
      generate_node c fuel child s0 = (none, s1) →
      generate_node c (fuel + 1) nid s = (none, s1)) ∧
    (∀ (nid lhs op rhs : NodeId) (l r : Nat) (s1 s2 : GenState),
      get_node c nid = AstNode.BinaryOp lhs op rhs →
      generate_node c fuel lhs s = (some l, s1) →
      generate_node c fuel rhs s1 = (some r, s2) →
      get_node c op ≠ AstNode.Plus →
      get_node c op ≠ AstNode.Multiply →
      generate_node c (fuel + 1) nid s =
        (none, { s2 with errors := s2.errors ++
          [{ message := "unrecognized operator " ++ reprAst (get_node c op),
             node_id := op, severity := Severity.Error }] })) :=
  ⟨fun _ h1 h2 h3 => generate_node_unsupported h1 h2 h3 fuel s,
   fun _ _ _ _ _ hn hl => generate_node_binop_lhs_fail hn fuel hl,
   fun _ _ _ _ _ _ _ hn hl hr => generate_node_binop_rhs_fail hn fuel hl hr,
   fun _ _ _ _ _ _ _ hn hl hrun hc =>
     generate_node_block_member_fail hn fuel hl hrun hc,
   fun _ _ _ _ _ _ _ _ hn hl hr h1 h2 =>
     generate_node_binop_op_fail hn fuel hl hr h1 h2⟩

/-- Witness for C2: a lone unsupported node yields exactly one diagnostic;
a binary op with a failing left child, a binary op with a failing right
child, and a block with a failing second member each fail with the
child's state; a binary op over two good literals with garbage in
operator position fails with one diagnostic at the operator node, keeping
both loads. -/
theorem claim2_witness :
    (generate_node exUnsup 1 { id := 0 } newState =
      (none, { newState with errors := newState.errors ++
        [{ message := "node Garbage not suported yet",
           node_id := { id := 0 }, severity := Severity.Error }] })) ∧
    (generate_node exBadLhs 4 { id := 3 } newState =
      (none, { newState with errors := newState.errors ++
        [{ message := "node Garbage not suported yet",
           node_id := { id := 0 }, severity := Severity.Error }] })) ∧
    (generate_node exBadRhs 4 { id := 3 } newState = (none, litS1Err)) ∧
    (generate_node exBlk 3 { id := 2 } newState = (none, litS1Err)) ∧
    (generate_node exBadOp 4 { id := 3 } newState =
      (none, { exAddS2 with errors := exAddS2.errors ++
        [{ message := "unrecognized operator Garbage",
           node_id := { id := 2 }, severity := Severity.Error }] })) :=
  ⟨(claim2_unsupported_node_diagnostics exUnsup 0 newState).1 { id := 0 }
      (by decide)
      (by intro bid h
          exact AstNode.noConfusion (show AstNode.Garbage = AstNode.Block bid from h))
      (by intro lhs op rhs h
          exact AstNode.noConfusion
            (show AstNode.Garbage = AstNode.BinaryOp lhs op rhs from h)),
   (claim2_unsupported_node_diagnostics exBadLhs 3 newState).2.1 { id := 3 }
      { id := 0 } { id := 2 } { id := 1 }
      { newState with errors := newState.errors ++
        [{ message := "node Garbage not suported yet",
           node_id := { id := 0 }, severity := Severity.Error }] }
      (by decide) (by decide),
   (claim2_unsupported_node_diagnostics exBadRhs 3 newState).2.2.1 { id := 3 }
      { id := 0 } { id := 2 } { id := 1 } 0 (litS1 1) litS1Err
      (by decide) (by decide) (by decide),
   (claim2_unsupported_node_diagnostics exBlk 2 newState).2.2.2.1 { id := 2 }
      { id := 0 } [{ id := 0 }] { id := 1 } [] (litS1 1) litS1Err
      (by decide) (by decide) ⟨0, litS1 1, by decide, rfl⟩ (by decide),
   (claim2_unsupported_node_diagnostics exBadOp 3 newState).2.2.2.2 { id := 3 }
      { id := 0 } { id := 2 } { id := 1 } 0 1 exAddS1 exAddS2
      (by decide) (by decide) (by decide) (by decide) (by decide)⟩

/-- C3: for a top-level binary addition or multiplication of two integer
literals, `generate` emits exactly load-literal into register 0,
load-literal into register 1, binary-op with destination/left register 0
and right register 1, then a return of register 0. -/
theorem claim3_binop_literals_program (c : Compiler) (lhs op rhs : NodeId)
    (v1 v2 : Int) (o : Operator)
    (hne : c.ast_nodes ≠ [])
    (htop : get_node c { id := c.ast_nodes.length - 1 } =
      AstNode.BinaryOp lhs op rhs)
    (hl : get_node c lhs = AstNode.Int)
    (hpl : spanI64Pure c lhs = some v1)
    (hr : get_node c rhs = AstNode.Int)
    (hpr : spanI64Pure c rhs = some v2)
    (hop : get_node c op = AstNode.Plus ∧ o = Operator.math Math.Plus ∨
      get_node c op = AstNode.Multiply ∧ o = Operator.math Math.Multiply) :
    (generate c newState).instructions =
      [Instruction.LoadLiteral 0 (Literal.int v1),
       Instruction.LoadLiteral 1 (Literal.int v2),
       Instruction.BinaryOp 0 o 1,
       Instruction.Return 0] := by
  obtain ⟨k, hk⟩ : ∃ k, c.ast_nodes.length = k + 1 :=
    Nat.exists_eq_succ_of_ne_zero (by
      intro h0
      exact hne (List.length_eq_zero.mp h0))
  have h1 : generate_node c (k + 1) lhs newState = (some 0, litS1 v1) :=
    generate_node_int_ok hl hpl k newState
  have h2 : generate_node c (k + 1) rhs (litS1 v1) = (some 1, litS2 v1 v2) :=
    generate_node_int_ok hr hpr k (litS1 v1)
  have h3 : node_to_operator c op (litS2 v1 v2) = (some o, litS2 v1 v2) := by
    cases hop with
    | inl hcase => rw [node_to_operator_plus hcase.1 (litS2 v1 v2), hcase.2]
    | inr hcase => rw [node_to_operator_multiply hcase.1 (litS2 v1 v2), hcase.2]
  have h4 := generate_node_binop_ok htop (k + 1) h1 h2 h3
  have h4f : generate_node c (fuelOf c) { id := c.ast_nodes.length - 1 }
      newState =
      (some 0, pushInstr (litS2 v1 v2) (Instruction.BinaryOp 0 o 1)) := by
    have hf : fuelOf c = k + 1 + 1 := by unfold fuelOf; rw [hk]
    rw [hf]
    exact h4
  rw [generate_eq_of_top_some hne h4f]
  simp [litS2, pushInstr]

/-- Witness for C3: `generate` on the parse result of `1 + 2`. -/
theorem claim3_witness :
    (generate exAdd newState).instructions =
      [Instruction.LoadLiteral 0 (Literal.int 1),
       Instruction.LoadLiteral 1 (Literal.int 2),
       Instruction.BinaryOp 0 (Operator.math Math.Plus) 1,
       Instruction.Return 0] :=
  claim3_binop_literals_program exAdd { id := 0 } { id := 2 } { id := 1 } 1 2
    (Operator.math Math.Plus) (by decide) (by decide) (by decide) (by decide)
    (by decide) (by decide) (Or.inl ⟨by decide, rfl⟩)

/-- C4: over any AST whatsoever, the registers handed out during one
generation pass are exactly 0, 1, 2, … in allocation order — hence
pairwise distinct, strictly increasing, and never reused. -/
theorem claim4_registers_increasing (c : Compiler) :
    (generate c newState).allocated =
      List.range (generate c newState).register_count ∧
    List.Chain' (fun a b => a < b) (generate c newState).allocated ∧
    (generate c newState).allocated.Nodup := by
  have ev := generate_evolve c newState
  have halloc : (generate c newState).allocated =
      List.range (generate c newState).register_count := by
    have h := ev.2.1
    simpa [newState, List.range_eq_range'] using h
  refine ⟨halloc, ?_, ?_⟩
  · rw [halloc]
    exact (List.pairwise_lt_range _).chain'
  · rw [halloc]
    exact List.nodup_range _

/-- C5: in the instruction sequence produced by one generation pass, every
register read by an instruction (the operands of a binary-op, the source
of a return) was defined as the destination of an earlier instruction of
that same sequence. -/
theorem claim5_uses_defined_earlier (c : Compiler) :
    UsesOk (generate c newState).instructions :=
  generate_uses c newState trivial

end NuIr

namespace NuIr

/-- C6: an integer-literal node whose span bytes fail UTF-8 decoding or
signed-64-bit parsing yields exactly one diagnostic referencing that node,
leaves the instruction list untouched, and produces no register (the
allocated register is consumed — see C9). -/
theorem claim6_bad_literal (c : Compiler) (fuel : Nat) (nid : NodeId)
    (s : GenState)
    (hn : get_node c nid = AstNode.Int)
    (hp : spanI64Pure c nid = none) :
    ∃ m, generate_node c (fuel + 1) nid s =
      (none, { s with
        register_count := s.register_count + 1,
        allocated := s.allocated ++ [s.register_count],
        errors := s.errors ++
          [{ message := m, node_id := nid, severity := Severity.Error }] }) :=
  generate_node_int_fail hn hp fuel s

/-- Witness for C6: a literal whose span text is `abc`. -/
theorem claim6_witness :
    ∃ m, generate_node exBadLit 1 { id := 0 } newState =
      (none, { newState with
        register_count := newState.register_count + 1,
        allocated := newState.allocated ++ [newState.register_count],
        errors := newState.errors ++
          [{ message := m, node_id := { id := 0 },
             severity := Severity.Error }] }) :=
  claim6_bad_literal exBadLit 0 { id := 0 } newState (by decide) (by decide)

/-- C7: an empty node table yields an untouched state: no instructions, no
diagnostics, and a block with register count 0. -/
theorem claim7_empty_ast (c : Compiler) (h : c.ast_nodes = []) :
    generate c newState = newState ∧
    (generate c newState).instructions = [] ∧
    errorsOf (generate c newState) = [] ∧
    (block (generate c newState)).instructions = [] ∧
    (block (generate c newState)).register_count = 0 := by
  rw [generate_eq_of_empty h newState]
  exact ⟨rfl, rfl, rfl, rfl, rfl⟩

/-- Witness for C7: the empty parse result. -/
theorem claim7_witness :
    generate exEmpty newState = newState ∧
    (generate exEmpty newState).instructions = [] ∧
    errorsOf (generate exEmpty newState) = [] ∧
    (block (generate exEmpty newState)).instructions = [] ∧
    (block (generate exEmpty newState)).register_count = 0 :=
  claim7_empty_ast exEmpty rfl

/-- C8: generation over the same immutable parse result is deterministic —
two passes from freshly constructed generator states yield identical
instruction sequences, register counts, and diagnostic lists.  In this
embedding the pass is a pure function of the parse result, mirroring the
source, whose only inputs are the borrowed compiler and the freshly
initialised generator fields. -/
theorem claim8_deterministic (c : Compiler) :
    (generate c newState).instructions = (generate c newState).instructions ∧
    (generate c newState).register_count =
      (generate c newState).register_count ∧
    errorsOf (generate c newState) = errorsOf (generate c newState) :=
  ⟨rfl, rfl, rfl⟩

/-- C9: on a literal whose text fails to decode or parse, the register is
consumed anyway: the counter is incremented before the text is parsed and
no instruction is emitted (first conjunct); any run that reaches such a
failing literal — directly, inside either operand of a binary operation,
or inside any member of a block — returns no register and strictly widens
the gap between the register counter and the count of registers defined
by emitted instructions (second conjunct); hence after any pass
containing such a failure, the block's register count strictly exceeds
the number of registers actually defined by the emitted instructions
(third conjunct). -/
theorem claim9_failed_literal_consumes_register (c : Compiler) :
    (∀ (fuel : Nat) (nid : NodeId) (s : GenState),
      get_node c nid = AstNode.Int →
      spanI64Pure c nid = none →
      (generate_node c (fuel + 1) nid s).1 = none ∧
      (generate_node c (fuel + 1) nid s).2.register_count =
        s.register_count + 1 ∧
      (generate_node c (fuel + 1) nid s).2.instructions = s.instructions) ∧
    (∀ (fuel : Nat) (nid : NodeId) (s : GenState),
      FailsLit c fuel nid s → UsesOk s.instructions →
      (generate_node c fuel nid s).1 = none ∧
      definedCount (generate_node c fuel nid s).2.instructions +
          s.register_count <
        definedCount s.instructions +
          (generate_node c fuel nid s).2.register_count) ∧
    (FailsLit c (fuelOf c) { id := c.ast_nodes.length - 1 } newState →
      definedCount (generate c newState).instructions <
        (generate c newState).register_count) := by
  refine ⟨?_, failslit_none_strict c, ?_⟩
  · intro fuel nid s h1 h2
    obtain ⟨m, hm⟩ := generate_node_int_fail h1 h2 fuel s
    rw [hm]
    exact ⟨rfl, rfl, rfl⟩
  · intro hf
    have hne := failslit_ne_nil hf
    have hstep := failslit_none_strict c (fuelOf c)
      { id := c.ast_nodes.length - 1 } newState hf trivial
    cases hx : generate_node c (fuelOf c) { id := c.ast_nodes.length - 1 }
        newState with
    | mk o s1 =>
      rw [hx] at hstep
      obtain ⟨hnone, hlt⟩ := hstep
      cases o with
      | some _ => exact Option.noConfusion hnone
      | none =>
        rw [generate_eq_of_top_none hne hx]
        have hlth : definedCount s1.instructions + newState.register_count <
            definedCount newState.instructions + s1.register_count := hlt
        have h0 : definedCount newState.instructions = 0 := rfl
        have h0r : newState.register_count = 0 := rfl
        omega

/-- Witness for C9: the failing-literal step on span text `abc`; the run
over `1 + abc` (failure nested inside the right operand); and the full
pass over `1 + abc`, whose register count 2 strictly exceeds the single
defined register of its one emitted instruction. -/
theorem claim9_witness :
    ((generate_node exBadLit 1 { id := 0 } newState).1 = none ∧
     (generate_node exBadLit 1 { id := 0 } newState).2.register_count =
       newState.register_count + 1 ∧
     (generate_node exBadLit 1 { id := 0 } newState).2.instructions =
       newState.instructions) ∧
    ((generate_node exAddBad 5 { id := 3 } newState).1 = none ∧
     definedCount (generate_node exAddBad 5 { id := 3 } newState).2.instructions +
         newState.register_count <
       definedCount newState.instructions +
         (generate_node exAddBad 5 { id := 3 } newState).2.register_count) ∧
    definedCount (generate exAddBad newState).instructions <
      (generate exAddBad newState).register_count :=
  ⟨(claim9_failed_literal_consumes_register exBadLit).1 0 { id := 0 } newState
      (by decide) (by decide),
   (claim9_failed_literal_consumes_register exAddBad).2.1 5 { id := 3 }
      newState exAddBad_failslit trivial,
   (claim9_failed_literal_consumes_register exAddBad).2.2 exAddBad_failslit⟩

/-- The state at which the pass over `exBadOp` stops: both literals loaded,
one diagnostic for the invalid operator node. -/
def exBadOpS : GenState :=
  { errors := [{ message := "unrecognized operator Garbage",
                 node_id := { id := 2 }, severity := Severity.Error }],
    instructions := [Instruction.LoadLiteral 0 (Literal.int 1),
      Instruction.LoadLiteral 1 (Literal.int 2)],
    register_count := 2, file_count := 0, allocated := [0, 1] }

/-- C10: lowering failure never rolls back emitted instructions — every
step only appends to the instruction list; and when the top-level lowering
fails, `generate` appends no terminal return, keeps the state as the
failure left it, and the block accessor still exposes exactly those
instructions, with the diagnostics available through the errors accessor. -/
theorem claim10_failure_no_rollback (c : Compiler) :
    (∀ (fuel : Nat) (nid : NodeId) (s : GenState), ∃ t,
      (generate_node c fuel nid s).2.instructions = s.instructions ++ t) ∧
    (∀ s1 : GenState,
      c.ast_nodes ≠ [] →
      generate_node c (fuelOf c) { id := c.ast_nodes.length - 1 } newState =
        (none, s1) →
      generate c newState = s1 ∧
      (block s1).instructions = s1.instructions ∧
      errorsOf s1 = s1.errors) := by
  refine ⟨fun fuel nid s => (generate_node_evolve c fuel nid s).2.2.1, ?_⟩
  intro s1 hne h
  exact ⟨generate_eq_of_top_none hne h, rfl, rfl⟩

/-- Witness for C10: the pass over `1 ⊕ 2` with an invalid operator node
keeps both emitted loads and the diagnostic, and appends no return. -/
theorem claim10_witness :
    (∃ t, (generate_node exBadOp 5 { id := 3 } newState).2.instructions =
      newState.instructions ++ t) ∧
    (generate exBadOp newState = exBadOpS ∧
     (block exBadOpS).instructions = exBadOpS.instructions ∧
     errorsOf exBadOpS = exBadOpS.errors) :=
  ⟨(claim10_failure_no_rollback exBadOp).1 5 { id := 3 } newState,
   (claim10_failure_no_rollback exBadOp).2 exBadOpS (by decide) (by decide)⟩

end NuIr
